import Mathlib

/-!
Verification development for the Splice-twelve ingestion/pricing application
(`src/app.py`).  The Python functions relevant to the stated properties are
shallowly embedded as executable Lean definitions:

* `normalizeCol`        — `normalize_col` (app.py lines 71–73)
* `matchTarget`         — `match_target` (lines 75–81); the anchored regular
  expressions of `HEADER_MAP` are compiled to their finite languages over
  run-collapsed strings
* `parseDataframeCols`  — the column pipeline of `parse_dataframe`
  (lines 83–115)
* `coerceSplices`       — the splices coercion of line 114
* `guessTypeColumn`     — the `type`-guessing loop of
  `guess_fields_by_content` (lines 141–147)
* `readExcelSmart`      — the strategy orchestration of `read_excel_smart`
  (lines 185–233), with the four pandas parsing strategies abstracted as
  outcomes
* `priceForSplices`     — `price_for_splices` (lines 235–240)
* `priceForDeviceType`  — `price_for_device_type` (lines 242–245), with SQL
  `ILIKE` modelled by an explicit case-insensitive LIKE-pattern matcher
* `priceRow`            — the per-row pricing of `dataframe_with_prices`
  (lines 247–253)

Monetary amounts (Python floats) are modelled as exact rationals; concrete
counterexamples use values that are exactly representable in binary floating
point so that the rational and float computations agree.
-/

namespace Splice

/-! ### Characters and whitespace -/

/-- ASCII whitespace, the characters matched by Python's `\s` on ASCII input
and stripped by `str.strip`. -/
def isWS (c : Char) : Bool :=
  c = ' ' || c = '\t' || c = '\n' || c = '\r' || c = '\x0B' || c = '\x0C'

/-- Case-folding table used by Python's `str.lower` on the Latin letters that
occur in this application's headers: ASCII `A–Z` plus the accented capitals of
the Portuguese header vocabulary.  All other characters (in particular the
accented lower-case letters) are left unchanged by `str.lower`. -/
def lowerTable : List (Char × Char) :=
  [('A','a'),('B','b'),('C','c'),('D','d'),('E','e'),('F','f'),('G','g'),
   ('H','h'),('I','i'),('J','j'),('K','k'),('L','l'),('M','m'),('N','n'),
   ('O','o'),('P','p'),('Q','q'),('R','r'),('S','s'),('T','t'),('U','u'),
   ('V','v'),('W','w'),('X','x'),('Y','y'),('Z','z'),
   ('À','à'),('Á','á'),('Â','â'),('Ã','ã'),('Ç','ç'),('É','é'),('Ê','ê'),
   ('Í','í'),('Ó','ó'),('Ô','ô'),('Õ','õ'),('Ú','ú')]

/-- Python `str.lower`, restricted to the character repertoire above. -/
def pyLower (c : Char) : Char :=
  match lowerTable.find? (fun p => p.1 = c) with
  | some p => p.2
  | none => c

/-- ASCII-only case folding, as performed by SQLite's `LIKE` operator (used
for the `ilike` lookup in `price_for_device_type`). -/
def asciiLower (c : Char) : Char :=
  match (lowerTable.take 26).find? (fun p => p.1 = c) with
  | some p => p.2
  | none => c

/-! ### `normalize_col` (app.py lines 71–73)

`normalize_col` does `re.sub(r"\s+", " ", str(col).strip()).lower()`:
strip both ends, collapse each internal whitespace run to a single space,
then lower-case.  `None` is mapped to the empty string.  -/

/-- Replace every maximal whitespace run by a single `' '`
(the effect of `re.sub(r"\s+", " ", ·)`). -/
def squeeze : List Char → List Char
  | [] => []
  | [c] => [if isWS c then ' ' else c]
  | c :: d :: cs =>
    if isWS c && isWS d then squeeze (d :: cs)
    else (if isWS c then ' ' else c) :: squeeze (d :: cs)

/-- Drop leading whitespace (Python `str.lstrip`). -/
def trimL (s : List Char) : List Char := s.dropWhile isWS

/-- Python `str.strip`: drop whitespace at both ends. -/
def strip (s : List Char) : List Char := (trimL (trimL s).reverse).reverse

/-- `normalize_col` on a string argument. -/
def normalizeCol (s : List Char) : List Char := (squeeze (strip s)).map pyLower

/-- `normalize_col` including the `None → ""` case of line 72. -/
def normalizeColOpt : Option (List Char) → List Char
  | none => []
  | some s => normalizeCol s

/-! ### `price_for_splices` (app.py lines 235–240)

The SQLAlchemy query filters tiers by
`(min_splices <= n) & ((max_splices >= n) | (max_splices is None))`,
orders by `min_splices` descending and takes the first row.  Tiers are
modelled as a list in configured (id) order; the descending-`min_splices`
choice is a fold that keeps the earliest row among equal keys. -/

/-- The `SpliceTier` configuration row (app.py lines 37–41). -/
structure SpliceTier where
  min_splices : ℤ
  max_splices : Option ℤ
  price_per_splice : ℚ
  deriving DecidableEq, Repr

/-- The tier filter of lines 237–238: `min_splices ≤ n` and
(`max_splices ≥ n` or `max_splices` is NULL). -/
def tierMatches (t : SpliceTier) (n : ℤ) : Bool :=
  decide (t.min_splices ≤ n) &&
    (match t.max_splices with
     | none => true
     | some m => decide (n ≤ m))

/-- One step of selecting the matching tier with the largest `min_splices`
(`order_by(min_splices.desc()).first()`); the earlier row wins ties. -/
def pickBest (acc : Option SpliceTier) (t : SpliceTier) : Option SpliceTier :=
  match acc with
  | none => some t
  | some b => if b.min_splices < t.min_splices then some t else some b

/-- The tier returned by the query of lines 236–239. -/
def bestTier (tiers : List SpliceTier) (n : ℤ) : Option SpliceTier :=
  (tiers.filter (fun t => tierMatches t n)).foldl pickBest none

/-- `price_for_splices` (lines 235–240): `n * tier.price_per_splice` for the
selected tier, `0.0` when no tier matches. -/
def priceForSplices (tiers : List SpliceTier) (n : ℤ) : ℚ :=
  match bestTier tiers n with
  | some t => (n : ℚ) * t.price_per_splice
  | none => 0

/-! ### `price_for_device_type` (app.py lines 242–245)

`DeviceType.query.filter(DeviceType.name.ilike(str(type_name))).first()`:
the first configured device type whose name matches `type_name` interpreted
as a case-insensitive SQL LIKE pattern (`%` matches any sequence, `_` any
single character, other characters literally up to ASCII case). -/

/-- The `DeviceType` configuration row (app.py lines 32–35). -/
structure DeviceType where
  name : List Char
  value : ℚ
  deriving DecidableEq, Repr

/-- Case-insensitive SQL LIKE matching of a pattern (first argument) against
a text (second argument): models the `ilike` operator applied by
`price_for_device_type`. -/
def likeMatch : List Char → List Char → Bool
  | [], t => t.isEmpty
  | c :: p, t =>
    if c = '%' then t.tails.any (fun s => likeMatch p s)
    else if c = '_' then
      match t with
      | [] => false
      | _ :: t' => likeMatch p t'
    else
      match t with
      | [] => false
      | d :: t' => (asciiLower c = asciiLower d) && likeMatch p t'

/-- `price_for_device_type` (lines 242–245): `0.0` for an empty (falsy) name,
otherwise the value of the first configured device type whose name matches
`type_name` as an `ilike` pattern, or `0.0` when none matches. -/
def priceForDeviceType (devs : List DeviceType) (typeName : List Char) : ℚ :=
  if typeName = [] then 0
  else
    match devs.find? (fun d => likeMatch typeName d.name) with
    | some d => d.value
    | none => 0

/-! ### Per-row pricing in `dataframe_with_prices` (app.py lines 247–253)

`dataframe_with_prices` first makes sure the `type` and `splices` columns
exist (defaulting to `None` resp. `0`), then per row computes
`price_splices = price_for_splices(int(n) if notna(n) else 0)`,
`price_device = price_for_device_type(str(t)) if notna(t) else 0.0`, and
`total = price_splices + price_device`.  A row is modelled with its nullable
canonical fields; the guaranteed-present defaults make the fields `Option`s
with `none` for null/NaN. -/

/-- A canonical row as priced by `dataframe_with_prices`.  `created_date` is
an abstract timestamp (never read by the pricing code). -/
structure CanonRow where
  type : Option (List Char)
  map : Option (List Char)
  splices : Option ℤ
  device : Option (List Char)
  created_date : Option ℤ
  sheet : List Char
  deriving DecidableEq, Repr

/-- A row together with the three price columns added by
`dataframe_with_prices`. -/
structure PricedRow where
  row : CanonRow
  price_splices : ℚ
  price_device : ℚ
  total : ℚ
  deriving DecidableEq, Repr

/-- The per-row computation of `dataframe_with_prices` (lines 250–252). -/
def priceRow (tiers : List SpliceTier) (devs : List DeviceType)
    (r : CanonRow) : PricedRow :=
  let ps := priceForSplices tiers (r.splices.getD 0)
  let pd :=
    match r.type with
    | some t => priceForDeviceType devs t
    | none => 0
  { row := r, price_splices := ps, price_device := pd, total := ps + pd }

/-- Half-up rounding to two decimal places, the rounding the specification
prescribes for `total`. -/
def roundHalfUp2 (q : ℚ) : ℚ := ((⌊q * 100 + 1 / 2⌋ : ℤ) : ℚ) / 100

/-! ### The splices coercion of `parse_dataframe` (app.py line 114)

`pd.to_numeric(col, errors="coerce").fillna(0).astype(int)`: a cell either
parses to a number (modelled `some q`) or becomes NaN (`none`); NaN is
replaced by `0` and `astype(int)` performs numpy's float64 → int64 C cast:
truncation toward zero when the truncated value fits in a signed 64-bit
integer, and on overflow the conversion (`cvttsd2si` on x86-64, as numpy
executes it) produces `INT64_MIN = -2^63`. -/

/-- Truncation toward zero (the in-range behaviour of the float → int
cast). -/
def ratTrunc (q : ℚ) : ℤ := if 0 ≤ q then ⌊q⌋ else -⌊-q⌋

/-- numpy's `astype(int)` cast to int64: truncation toward zero inside the
signed 64-bit range, `INT64_MIN` on overflow in either direction. -/
def int64Cast (q : ℚ) : ℤ :=
  if ratTrunc q < -(2 ^ 63) ∨ 2 ^ 63 - 1 < ratTrunc q then -(2 ^ 63)
  else ratTrunc q

/-- The splices coercion of line 114 applied to one cell, where the argument
is the cell's `to_numeric` parse result (`none` = unparseable/absent). -/
def coerceSplices (cell : Option ℚ) : ℤ :=
  match cell with
  | none => 0
  | some q => int64Cast q

/-! ### `match_target` and the column pipeline of `parse_dataframe`
(app.py lines 63–115)

Every `HEADER_MAP` regular expression is anchored (`^...$`) and is matched
against the run-collapsed, lower-cased output of `normalize_col`, so each
pattern denotes a finite set of strings (each `\s*` can only match the empty
string or a single space after run collapsing).  The sets below enumerate
those languages literally. -/

/-- Convert a list of string literals to header keys. -/
def strs (l : List String) : List (List Char) := l.map String.toList

/-- Canonical field names. -/
def typeField : List Char := "type".toList

def mapField : List Char := "map".toList

def splicesField : List Char := "splices".toList

def deviceField : List Char := "device".toList

def createdField : List Char := "created_date".toList

def sheetField : List Char := "__sheet__".toList

def splicerField : List Char := "splicer".toList

/-- The five canonical columns of the `keep` projection (line 108). -/
def canonical5 : List (List Char) :=
  [typeField, mapField, splicesField, deviceField, createdField]

/-- Language of `HEADER_MAP["type"]`. -/
def typeAliases : List (List Char) := strs ["type", "tipo", "category", "classe"]

/-- Language of `HEADER_MAP["map"]`. -/
def mapAliases : List (List Char) :=
  strs ["map", "mapa", "map_id", "id_mapa", "map name", "nome do mapa"]

/-- Language of `HEADER_MAP["splices"]`; the last block enumerates
`^n[úu]mero\s*de\s*fus(?:ões|oes)$`. -/
def splicesAliases : List (List Char) :=
  strs (["splice", "splices", "fusões", "fusoes", "splice count",
         "qtdfusões", "qtdfusoes", "qtd fusões", "qtd fusoes"]
    ++ (["número", "numero"].flatMap (fun a =>
         ["", " "].flatMap (fun s1 =>
           ["", " "].flatMap (fun s2 =>
             ["fusões", "fusoes"].map (fun f => a ++ s1 ++ "de" ++ s2 ++ f))))))

/-- Language of `HEADER_MAP["device"]`. -/
def deviceAliases : List (List Char) :=
  strs ["device", "dispositivo", "aparelho", "equip", "equipamento",
        "serial", "iddevice", "id device"]

/-- Language of `HEADER_MAP["created_date"]`; the middle block enumerates
`^data\s*de\s*cria[çc][aã]o$`. -/
def createdAliases : List (List Char) :=
  strs (["createdat", "created_at", "created at"]
    ++ (["", " "].flatMap (fun s1 =>
         ["", " "].flatMap (fun s2 =>
           ["ção", "çao", "cão", "cao"].map (fun tl =>
             "data" ++ s1 ++ "de" ++ s2 ++ "cria" ++ tl))))
    ++ ["data", "date", "created"])

/-- `match_target` (lines 75–81): normalize the label, then return the first
`HEADER_MAP` target (in dict insertion order) one of whose patterns matches
it in full. -/
def matchTarget (col : List Char) : Option (List Char) :=
  let c := normalizeCol col
  if c ∈ typeAliases then some typeField
  else if c ∈ mapAliases then some mapField
  else if c ∈ splicesAliases then some splicesField
  else if c ∈ deviceAliases then some deviceField
  else if c ∈ createdAliases then some createdField
  else none

/-- The `renamed` dictionary of lines 85–89: scan the columns left to right
and claim each target at most once. -/
def buildRename (cols : List (List Char)) : List (List Char × List Char) :=
  cols.foldl
    (fun acc col =>
      match matchTarget col with
      | some t => if acc.any (fun p => p.2 = t) then acc else acc ++ [(col, t)]
      | none => acc)
    []

/-- `df.rename(columns=renamed)` applied to one label. -/
def applyRename (ren : List (List Char × List Char)) (col : List Char) :
    List Char :=
  match ren.find? (fun p => p.1 = col) with
  | some p => p.2
  | none => col

/-- The header-based renaming of lines 85–90 on the list of column labels. -/
def renameByHeader (cols : List (List Char)) : List (List Char) :=
  cols.map (applyRename (buildRename cols))

/-- Whether the first list is an initial segment of the second. -/
def begWith : List Char → List Char → Bool
  | [], _ => true
  | _ :: _, [] => false
  | c :: p, d :: s => c = d && begWith p s

/-- Whether `p` occurs as a contiguous substring of `s` (`re.search` with a
literal pattern). -/
def hasSubstr (p s : List Char) : Bool := s.tails.any (fun t => begWith p t)

/-- The `ensure` fallback of lines 93–106: when `field` is still absent,
rename the first column whose normalized label contains one of the literal
patterns as a substring (`re.search`). -/
def ensureField (work : List (List Char)) (field : List Char)
    (pats : List (List Char)) : List (List Char) :=
  if field ∈ work then work
  else
    match work.find?
        (fun cand => pats.any (fun p => hasSubstr p (normalizeCol cand))) with
    | some cand => work.map (fun c => if c = cand then field else c)
    | none => work

/-- The column-level effect of `parse_dataframe` (lines 83–115): header
renaming, the five `ensure` fallbacks, projection onto the canonical columns
that are present (`keep`, line 108), and the `__sheet__` tag (line 112). -/
def parseDataframeCols (cols : List (List Char)) : List (List Char) :=
  let work0 := renameByHeader cols
  let work1 := ensureField work0 typeField (strs ["type", "tipo", "category"])
  let work2 := ensureField work1 mapField (strs ["map", "mapa"])
  let work3 := ensureField work2 splicesField (strs ["splice", "fus"])
  let work4 := ensureField work3 deviceField
    (strs ["device", "dispositivo", "aparelho", "equip"])
  let work5 := ensureField work4 createdField (strs ["created", "data", "date"])
  (canonical5.filter (fun c => c ∈ work5)) ++ [sheetField]

/-! ### The `type` guess of `guess_fields_by_content` (app.py lines 138–147)

For each column in order, the loop lower-cases and trims the cells rendered
as strings and tests whether the fraction lying in the fixed vocabulary
exceeds `0.3`; the first such column is taken (`break`).  A pandas boolean
`mean()` over zero cells is NaN and the `> 0.3` comparison is then false,
which the rational model renders as fraction `0`. -/

/-- A raw column: its label and its cells after `astype(str)`. -/
structure RawColumn where
  name : List Char
  cells : List (List Char)
  deriving DecidableEq, Repr

/-- The vocabulary `type_like` of line 140. -/
def typeVocab : List (List Char) :=
  strs ["splice", "test", "placement", "service", "splicing"]

/-- One cell after `.str.strip().str.lower()`, tested by `isin(type_like)`. -/
def cellIsTypeLike (s : List Char) : Bool :=
  typeVocab.contains ((strip s).map pyLower)

/-- `(series.isin(type_like)).mean()` for one column. -/
def typeFrac (col : RawColumn) : ℚ :=
  if col.cells.length = 0 then 0
  else (col.cells.countP cellIsTypeLike : ℚ) / (col.cells.length : ℚ)

/-- The `type` selection of lines 141–147: the first column whose vocabulary
fraction strictly exceeds `0.3`, if any. -/
def guessTypeColumn (cols : List RawColumn) : Option RawColumn :=
  cols.find? (fun c => decide ((3 : ℚ) / 10 < typeFrac c))

/-! ### The strategy orchestration of `read_excel_smart` (app.py lines 185–233)

Each of the four strategies (default header; two-row header with per-sheet
content guessing; `header=1` with per-sheet content guessing; parse then
guess) is a pandas computation over the uploaded workbook; here a workbook is
abstracted by the outcome each strategy would produce — either an exception
(`Except.error`) or a concatenated frame, represented by its column labels.
The orchestration (which strategy's result is returned when) is translated
from the source. -/

/-- The column labels of a concatenated result frame. -/
abbrev Frame := List (List Char)

/-- The required set `{"type","map","splices","device"}` of line 195. -/
def required4 : List (List Char) :=
  [typeField, mapField, splicesField, deviceField]

/-- `set(required).issubset(set(df.columns))`. -/
def hasRequired (f : Frame) : Bool := required4.all (fun c => f.contains c)

/-- A workbook abstracted by the outcome of each parsing strategy. -/
structure SmartOutcomes where
  stratA : Except Unit Frame
  stratB : Except Unit Frame
  stratC : Except Unit Frame
  stratD : Except Unit Frame
  deriving Repr

/-- The fall-through of lines 197–233 once strategy (a) was not accepted:
strategy (b)'s result is returned whenever (b) does not raise, otherwise
(c)'s result whenever (c) does not raise, otherwise (d)'s outcome (whose
exception is re-raised, line 233). -/
def readExcelRest (w : SmartOutcomes) : Except Unit Frame :=
  match w.stratB with
  | .ok df => .ok df
  | .error _ =>
    match w.stratC with
    | .ok df => .ok df
    | .error _ => w.stratD

/-- `read_excel_smart` (lines 185–233): strategy (a)'s result is returned
only when it contains the four required columns (line 195); in every other
case — including (a) raising — control falls through to `readExcelRest`. -/
def readExcelSmart (w : SmartOutcomes) : Except Unit Frame :=
  match w.stratA with
  | .ok df => if hasRequired df then .ok df else readExcelRest w
  | .error _ => readExcelRest w

/-! ### Helper lemmas about the tier selection fold -/

/-- `tierMatches` unfolded to its arithmetic meaning. -/
theorem tierMatches_iff (t : SpliceTier) (k : ℤ) :
    tierMatches t k = true ↔
      t.min_splices ≤ k ∧ ∀ mx ∈ t.max_splices, k ≤ mx := by
  cases h : t.max_splices <;> simp [tierMatches, h]

theorem pickBest_eq_some (acc : Option SpliceTier) (t b : SpliceTier)
    (h : pickBest acc t = some b) : b = t ∨ acc = some b := by
  cases acc with
  | none => exact Or.inl (Option.some.inj h).symm
  | some a =>
    simp only [pickBest] at h
    split at h
    · exact Or.inl (Option.some.inj h).symm
    · exact Or.inr h

theorem pickBest_isSome (acc : Option SpliceTier) (t : SpliceTier) :
    ∃ b, pickBest acc t = some b := by
  cases acc with
  | none => exact ⟨t, rfl⟩
  | some a =>
    simp only [pickBest]
    split
    · exact ⟨t, rfl⟩
    · exact ⟨a, rfl⟩

theorem pickBest_min (acc : Option SpliceTier) (t b : SpliceTier)
    (h : pickBest acc t = some b) :
    t.min_splices ≤ b.min_splices ∧
      ∀ a, acc = some a → a.min_splices ≤ b.min_splices := by
  cases acc with
  | none =>
    cases Option.some.inj h
    exact ⟨le_refl _, by intro a ha; cases ha⟩
  | some a =>
    simp only [pickBest] at h
    split at h
    · cases Option.some.inj h
      exact ⟨le_refl _, by intro a' ha'; cases Option.some.inj ha'; omega⟩
    · cases Option.some.inj h
      refine ⟨by omega, ?_⟩
      intro a' ha'; cases Option.some.inj ha'; exact le_refl _

theorem foldl_pickBest_mem :
    ∀ (l : List SpliceTier) (acc : Option SpliceTier) (b : SpliceTier),
      l.foldl pickBest acc = some b → b ∈ l ∨ acc = some b
  | [], _, _, h => Or.inr h
  | t :: ts, acc, b, h => by
    rcases foldl_pickBest_mem ts (pickBest acc t) b h with hmem | hacc
    · exact Or.inl (List.mem_cons_of_mem _ hmem)
    · rcases pickBest_eq_some acc t b hacc with rfl | h'
      · exact Or.inl (List.mem_cons_self _ _)
      · exact Or.inr h'

theorem foldl_pickBest_le :
    ∀ (l : List SpliceTier) (acc : Option SpliceTier) (b : SpliceTier),
      l.foldl pickBest acc = some b →
      (∀ u ∈ l, u.min_splices ≤ b.min_splices) ∧
        ∀ a, acc = some a → a.min_splices ≤ b.min_splices
  | [], _, b, h => by
    refine ⟨by simp, ?_⟩
    intro a ha; rw [ha] at h; cases Option.some.inj h; exact le_refl _
  | t :: ts, acc, b, h => by
    have ih := foldl_pickBest_le ts (pickBest acc t) b h
    obtain ⟨a', ha'⟩ := pickBest_isSome acc t
    have ha'le := ih.2 a' ha'
    have hmin := pickBest_min acc t a' ha'
    refine ⟨?_, ?_⟩
    · intro u hu
      rcases List.mem_cons.mp hu with rfl | hu'
      · exact le_trans hmin.1 ha'le
      · exact ih.1 u hu'
    · intro a ha
      exact le_trans (hmin.2 a ha) ha'le

theorem foldl_pickBest_some :
    ∀ (l : List SpliceTier) (a : SpliceTier),
      ∃ b, l.foldl pickBest (some a) = some b
  | [], a => ⟨a, rfl⟩
  | t :: ts, a => by
    obtain ⟨a', ha'⟩ := pickBest_isSome (some a) t
    obtain ⟨b, hb⟩ := foldl_pickBest_some ts a'
    exact ⟨b, by simpa [List.foldl, ha'] using hb⟩

/-- When no configured tier matches, `price_for_splices` returns `0`. -/
theorem priceForSplices_no_match (tiers : List SpliceTier) (n : ℤ)
    (h : ∀ t ∈ tiers, tierMatches t n = false) :
    priceForSplices tiers n = 0 := by
  have hf : tiers.filter (fun t => tierMatches t n) = [] := by
    rw [List.filter_eq_nil_iff]
    intro t ht
    simp [h t ht]
  simp [priceForSplices, bestTier, hf]

/-- When `t` is a matching tier whose `min_splices` strictly dominates every
other matching tier's, the query selects `t` and the price is
`n * t.price_per_splice`. -/
theorem priceForSplices_of_strict_max (tiers : List SpliceTier) (n : ℤ)
    (t : SpliceTier) (ht : t ∈ tiers) (hm : tierMatches t n = true)
    (hstrict : ∀ u ∈ tiers, tierMatches u n = true → u ≠ t →
      u.min_splices < t.min_splices) :
    priceForSplices tiers n = (n : ℚ) * t.price_per_splice := by
  have htf : t ∈ tiers.filter (fun u => tierMatches u n) :=
    List.mem_filter.mpr ⟨ht, hm⟩
  obtain ⟨t₀, ts₀, hcons⟩ := List.exists_cons_of_ne_nil
    (List.ne_nil_of_mem htf)
  obtain ⟨b, hb⟩ : ∃ b, bestTier tiers n = some b := by
    unfold bestTier
    rw [hcons]
    simpa [List.foldl] using foldl_pickBest_some ts₀ t₀
  have hbmem : b ∈ tiers.filter (fun u => tierMatches u n) := by
    rcases foldl_pickBest_mem _ _ _ hb with h' | h'
    · exact h'
    · cases h'
  have hble := (foldl_pickBest_le _ _ _ hb).1 t htf
  have hbin := List.mem_filter.mp hbmem
  have hbt : b = t := by
    by_contra hne
    exact absurd hble
      (not_le.mpr (hstrict b hbin.1 hbin.2 hne))
  subst hbt
  simp [priceForSplices, hb]

/-! ### Claim C1 -/

/-- C1: among configured tiers satisfying `min_splices ≤ n` and
(`max_splices` absent or `≥ n`), `price_for_splices` selects the tier with
the largest `min_splices` and returns `n ×` that tier's unit price — in
particular, inside two overlapping ranges the tier with the strictly larger
`min_splices` wins — and returns `0` when no tier matches. -/
theorem claim_C1 (tiers : List SpliceTier) (n : ℤ) :
    ((∀ t ∈ tiers, tierMatches t n = false) → priceForSplices tiers n = 0) ∧
    ∀ t ∈ tiers, tierMatches t n = true →
      (∀ u ∈ tiers, tierMatches u n = true → u ≠ t →
        u.min_splices < t.min_splices) →
      priceForSplices tiers n = (n : ℚ) * t.price_per_splice :=
  ⟨priceForSplices_no_match tiers n,
   fun t ht hm hstrict => priceForSplices_of_strict_max tiers n t ht hm hstrict⟩

/-- Witness for C1: with overlapping tiers `[1,10]→2` and `[5,∞)→3`, the
splice count `7` is priced by the second tier: `7 × 3 = 21`. -/
theorem claim_C1_witness :
    priceForSplices [⟨1, some 10, 2⟩, ⟨5, none, 3⟩] 7 = 21 := by
  have h := (claim_C1 [⟨1, some 10, 2⟩, ⟨5, none, 3⟩] 7).2
    ⟨5, none, 3⟩ (List.mem_cons_of_mem _ (List.mem_cons_self _ _)) (by decide)
    (by
      intro u hu hmu hne
      rcases List.mem_cons.mp hu with rfl | hu'
      · decide
      · rcases List.mem_cons.mp hu' with rfl | hu''
        · exact absurd rfl hne
        · cases hu'')
  rw [h]; norm_num

/-! ### Claim C9 -/

/-- The tiers are pairwise non-overlapping: no splice count lies in the
ranges of two distinct configured tiers. -/
def disjointTiers (tiers : List SpliceTier) : Prop :=
  ∀ t ∈ tiers, ∀ u ∈ tiers, t ≠ u →
    ∀ k : ℤ, ¬(tierMatches t k = true ∧ tierMatches u k = true)

/-- Unit prices ascend with `min_splices`: when the tiers are sorted by
ascending `min_splices` their unit prices are also ascending. -/
def ascendingPrices (tiers : List SpliceTier) : Prop :=
  ∀ t ∈ tiers, ∀ u ∈ tiers,
    t.min_splices ≤ u.min_splices → t.price_per_splice ≤ u.price_per_splice

/-- C9 counterexample: with the single tier `[0,10] → 2.00` the tier set is
pairwise non-overlapping and has ascending prices, yet
`price_for_splices(5) = 10 > 0 = price_for_splices(11)` because `11` lies in
no tier's range — the claimed monotonicity fails as stated. -/
theorem claim_C9_counterexample :
    disjointTiers [⟨0, some 10, 2⟩] ∧
    ascendingPrices [⟨0, some 10, 2⟩] ∧
    (5 : ℤ) ≤ 11 ∧
    ¬(priceForSplices [⟨0, some 10, 2⟩] 5 ≤ priceForSplices [⟨0, some 10, 2⟩] 11) := by
  refine ⟨?_, ?_, by norm_num, ?_⟩
  · intro t ht u hu hne
    rw [List.mem_singleton] at ht hu
    subst ht; subst hu
    exact absurd rfl hne
  · intro t ht u hu _
    rw [List.mem_singleton] at ht hu
    subst ht; subst hu
    exact le_refl _
  · have h5 : priceForSplices [⟨0, some 10, 2⟩] 5 = 10 := by
      norm_num [priceForSplices, bestTier, tierMatches, pickBest, List.filter]
    have h11 : priceForSplices [⟨0, some 10, 2⟩] 11 = 0 := by
      norm_num [priceForSplices, bestTier, tierMatches, pickBest, List.filter]
    rw [h5, h11]; norm_num

/-- C9 (amended): for non-negative splice counts `m ≤ n`, non-overlapping
tiers with prices ascending in `min_splices` and non-negative unit prices,
and provided both `m` and `n` lie inside some tier's range,
`price_for_splices(m) ≤ price_for_splices(n)`. -/
theorem claim_C9 (tiers : List SpliceTier) (m n : ℤ)
    (h0 : 0 ≤ m) (hmn : m ≤ n)
    (hdisj : disjointTiers tiers)
    (hasc : ascendingPrices tiers)
    (hpos : ∀ t ∈ tiers, 0 ≤ t.price_per_splice)
    (hm : ∃ t ∈ tiers, tierMatches t m = true)
    (hn : ∃ t ∈ tiers, tierMatches t n = true) :
    priceForSplices tiers m ≤ priceForSplices tiers n := by
  obtain ⟨tm, htm, hmm⟩ := hm
  obtain ⟨tn, htn, hnn⟩ := hn
  have hum : ∀ u ∈ tiers, tierMatches u m = true → u = tm := by
    intro u hu hmu
    by_contra hne
    exact hdisj u hu tm htm hne m ⟨hmu, hmm⟩
  have hun : ∀ u ∈ tiers, tierMatches u n = true → u = tn := by
    intro u hu hmu
    by_contra hne
    exact hdisj u hu tn htn hne n ⟨hmu, hnn⟩
  have hpm : priceForSplices tiers m = (m : ℚ) * tm.price_per_splice :=
    priceForSplices_of_strict_max tiers m tm htm hmm
      (fun u hu hmu hne => absurd (hum u hu hmu) hne)
  have hpn : priceForSplices tiers n = (n : ℚ) * tn.price_per_splice :=
    priceForSplices_of_strict_max tiers n tn htn hnn
      (fun u hu hmu hne => absurd (hun u hu hmu) hne)
  have hminle : tm.min_splices ≤ tn.min_splices := by
    by_cases heq : tn = tm
    · subst heq; exact le_refl _
    · by_contra hlt
      push_neg at hlt
      have h1 : tierMatches tn m = true := by
        rw [tierMatches_iff] at hmm hnn ⊢
        refine ⟨by omega, ?_⟩
        intro mx hmx
        exact le_trans hmn (hnn.2 mx hmx)
      exact heq (hum tn htn h1)
  have hple : tm.price_per_splice ≤ tn.price_per_splice :=
    hasc tm htm tn htn hminle
  rw [hpm, hpn]
  have hmq : (m : ℚ) ≤ (n : ℚ) := by exact_mod_cast hmn
  have hnq : (0 : ℚ) ≤ (n : ℚ) := by exact_mod_cast le_trans h0 hmn
  exact mul_le_mul hmq hple (hpos tm htm) hnq

/-- Witness for C9: tiers `[0,10]→2` and `[11,∞)→3` with `m = 5 ≤ 12 = n`
give `price_for_splices(5) = 10 ≤ 36 = price_for_splices(12)`. -/
theorem claim_C9_witness :
    priceForSplices [⟨0, some 10, 2⟩, ⟨11, none, 3⟩] 5 ≤
      priceForSplices [⟨0, some 10, 2⟩, ⟨11, none, 3⟩] 12 := by
  refine claim_C9 [⟨0, some 10, 2⟩, ⟨11, none, 3⟩] 5 12 (by norm_num)
    (by norm_num) ?_ ?_ ?_ ?_ ?_
  · intro t ht u hu hne k hk
    rcases List.mem_cons.mp ht with rfl | ht' <;>
      rcases List.mem_cons.mp hu with rfl | hu'
    · exact hne rfl
    · rw [List.mem_singleton] at hu'
      subst hu'
      obtain ⟨hk1, hk2⟩ := hk
      rw [tierMatches_iff] at hk1 hk2
      have h1 : k ≤ 10 := hk1.2 10 rfl
      have h2 : (11 : ℤ) ≤ k := hk2.1
      omega
    · rw [List.mem_singleton] at ht'
      subst ht'
      obtain ⟨hk1, hk2⟩ := hk
      rw [tierMatches_iff] at hk1 hk2
      have h1 : k ≤ 10 := hk2.2 10 rfl
      have h2 : (11 : ℤ) ≤ k := hk1.1
      omega
    · rw [List.mem_singleton] at ht' hu'
      subst ht'; subst hu'
      exact hne rfl
  · intro t ht u hu hle
    rcases List.mem_cons.mp ht with rfl | ht' <;>
      rcases List.mem_cons.mp hu with rfl | hu'
    · exact le_refl _
    · rw [List.mem_singleton] at hu'
      subst hu'
      norm_num
    · rw [List.mem_singleton] at ht'
      subst ht'
      simp at hle
    · rw [List.mem_singleton] at ht' hu'
      subst ht'; subst hu'
      exact le_refl _
  · intro t ht
    rcases List.mem_cons.mp ht with rfl | ht'
    · norm_num
    · rw [List.mem_singleton] at ht'
      subst ht'
      norm_num
  · exact ⟨⟨0, some 10, 2⟩, List.mem_cons_self _ _, by decide⟩
  · exact ⟨⟨11, none, 3⟩, List.mem_cons_of_mem _ (List.mem_cons_self _ _),
      by decide⟩

/-! ### Claim C2 -/

/-- C2 counterexample: with the single tier `[0,∞) → 0.125` (a value exactly
representable in binary floating point) and no device types, the row with
`splices = 1` totals `0.125`, which is not the half-up 2-decimal rounding
`0.13` of the sum of its charges — the code performs no rounding. -/
theorem claim_C2_counterexample :
    (priceRow [⟨0, none, 1/8⟩] [] ⟨none, none, some 1, none, none, []⟩).total ≠
      roundHalfUp2
        ((priceRow [⟨0, none, 1/8⟩] [] ⟨none, none, some 1, none, none, []⟩).price_splices +
         (priceRow [⟨0, none, 1/8⟩] [] ⟨none, none, some 1, none, none, []⟩).price_device) := by
  have hps : priceForSplices [⟨0, none, (1:ℚ)/8⟩] 1 = 1/8 := by
    norm_num [priceForSplices, bestTier, tierMatches, pickBest, List.filter]
  simp only [priceRow, Option.getD]
  rw [hps]
  norm_num [roundHalfUp2]

/-- C2 (amended): for every priced record, the total equals the splice
charge plus the device charge exactly, with no rounding applied. -/
theorem claim_C2 (tiers : List SpliceTier) (devs : List DeviceType)
    (r : CanonRow) :
    (priceRow tiers devs r).total =
      (priceRow tiers devs r).price_splices +
        (priceRow tiers devs r).price_device := rfl

/-! ### Claim C3 -/

/-- C3 counterexample: a splices cell that parses to the numeric value `-5`
is coerced to the negative integer `-5`, and even the *non-negative* value
`1e19` (exactly representable in float64, beyond `INT64_MAX`) overflows the
int64 cast to the negative `INT64_MIN` — so input cells can produce negative
`splices` values. -/
theorem claim_C3_counterexample : coerceSplices (some (-5)) = -5 ∧
    coerceSplices (some 10000000000000000000) = -9223372036854775808 ∧
    coerceSplices (some 10000000000000000000) < 0 := by
  have h1 : coerceSplices (some (-5)) = -5 := by
    norm_num [coerceSplices, int64Cast, ratTrunc]
  have h2 : coerceSplices (some 10000000000000000000) =
      -9223372036854775808 := by
    have ht : ratTrunc 10000000000000000000 = 10000000000000000000 := by
      norm_num [ratTrunc]
    norm_num [coerceSplices, int64Cast, ht]
  exact ⟨h1, h2, by rw [h2]; norm_num⟩

/-- C3 (amended): the assembled `splices` value is always an integer and
never null — absent or unparseable input coerces to `0`, and non-negative
numeric input whose truncation fits in the signed 64-bit range coerces to a
non-negative integer — but negative numeric input produces a negative value
(truncated toward zero), and non-negative input beyond `INT64_MAX` overflows
the int64 cast to the negative `INT64_MIN`. -/
theorem claim_C3 :
    coerceSplices none = 0 ∧
    (∀ q : ℚ, 0 ≤ q → ratTrunc q ≤ 2 ^ 63 - 1 →
      0 ≤ coerceSplices (some q)) ∧
    (∀ q : ℚ, coerceSplices (some q) < 0 →
      q < 0 ∨ 2 ^ 63 - 1 < ratTrunc q) := by
  have htr : ∀ q : ℚ, 0 ≤ q → 0 ≤ ratTrunc q := by
    intro q hq
    simp only [ratTrunc, if_pos hq]
    exact Int.floor_nonneg.mpr hq
  refine ⟨rfl, ?_, ?_⟩
  · intro q h0 hle
    have hnn := htr q h0
    simp only [coerceSplices, int64Cast]
    rw [if_neg (by push_neg; exact ⟨by omega, hle⟩)]
    exact hnn
  · intro q h
    by_contra hq
    push_neg at hq
    obtain ⟨h0, hle⟩ := hq
    have hnn := htr q h0
    simp only [coerceSplices, int64Cast] at h
    rw [if_neg (by push_neg; exact ⟨by omega, hle⟩)] at h
    omega

/-- Witness for C3: the in-range cell value `3` coerces to a non-negative
integer. -/
theorem claim_C3_witness : 0 ≤ coerceSplices (some 3) :=
  claim_C3.2.1 3 (by norm_num) (by norm_num [ratTrunc])

/-! ### Claim C6 -/

/-- C6 counterexample: with the configured device type `ONT → 5`, the
type name `"ON%"` — which is not case-insensitively equal to `"ONT"` —
nevertheless matches through the SQL `ilike` wildcard and is priced `5`,
so `price_for_device_type` is not restricted to case-insensitive exact
matching. -/
theorem claim_C6_counterexample :
    priceForDeviceType [⟨"ONT".toList, 5⟩] "ON%".toList = 5 ∧
      "ON%".toList.map asciiLower ≠ "ONT".toList.map asciiLower := by
  exact ⟨rfl, by decide⟩

/-- On a wildcard-free pattern, `likeMatch` is exactly ASCII
case-insensitive string equality. -/
theorem likeMatch_no_wildcard :
    ∀ (p t : List Char), '%' ∉ p → '_' ∉ p →
      (likeMatch p t = true ↔ p.map asciiLower = t.map asciiLower)
  | [], t, _, _ => by cases t <;> simp [likeMatch]
  | c :: p, t, hp, hu => by
    have hc1 : c ≠ '%' := fun h => hp (h ▸ List.mem_cons_self _ _)
    have hc2 : c ≠ '_' := fun h => hu (h ▸ List.mem_cons_self _ _)
    have hp' : '%' ∉ p := fun h => hp (List.mem_cons_of_mem _ h)
    have hu' : '_' ∉ p := fun h => hu (List.mem_cons_of_mem _ h)
    cases t with
    | nil => simp [likeMatch, hc1, hc2]
    | cons d t' =>
      have ih := likeMatch_no_wildcard p t' hp' hu'
      simp [likeMatch, hc1, hc2, ih]

/-- C6 (amended): `price_for_device_type` returns `0` for an empty type
name and when no configured name matches, and it matches `type_name` as a
case-insensitive SQL LIKE pattern — for a `type_name` without the wildcard
characters `%` and `_` this is exactly case-insensitive equality, but a
`type_name` containing wildcards can match names it does not equal
case-insensitively. -/
theorem claim_C6 :
    (∀ devs : List DeviceType, priceForDeviceType devs [] = 0) ∧
    (∀ (devs : List DeviceType) (t : List Char),
      (∀ d ∈ devs, likeMatch t d.name = false) →
        priceForDeviceType devs t = 0) ∧
    (∀ p t : List Char, '%' ∉ p → '_' ∉ p →
      (likeMatch p t = true ↔ p.map asciiLower = t.map asciiLower)) := by
  refine ⟨fun devs => rfl, ?_, likeMatch_no_wildcard⟩
  intro devs t h
  unfold priceForDeviceType
  split
  · rfl
  · have hf : devs.find? (fun d => likeMatch t d.name) = none := by
      rw [List.find?_eq_none]
      intro d hd
      simp [h d hd]
    rw [hf]

/-- Witness for C6: `"ont"` (no wildcards) matches the configured name
`"ONT"` case-insensitively. -/
theorem claim_C6_witness : likeMatch "ont".toList "ONT".toList = true :=
  (claim_C6.2.2 "ont".toList "ONT".toList (by decide) (by decide)).mpr
    (by decide)

/-! ### Helper lemmas about `normalize_col` -/

theorem lowerTable_not_ws :
    ∀ p ∈ lowerTable, isWS p.1 = false ∧ isWS p.2 = false := by decide

/-- `str.lower` maps non-whitespace to non-whitespace and vice versa. -/
theorem isWS_pyLower (c : Char) : isWS (pyLower c) = isWS c := by
  unfold pyLower
  cases h : lowerTable.find? (fun p => p.1 = c) with
  | none => rfl
  | some p =>
    have hmem := List.mem_of_find?_eq_some h
    have heq : p.1 = c := by
      have := List.find?_some h
      rwa [decide_eq_true_eq] at this
    rw [← heq, (lowerTable_not_ws p hmem).1, (lowerTable_not_ws p hmem).2]

/-- `str.lower` fixes whitespace characters. -/
theorem pyLower_of_ws (c : Char) (h : isWS c = true) : pyLower c = c := by
  unfold pyLower
  cases hf : lowerTable.find? (fun p => p.1 = c) with
  | none => rfl
  | some p =>
    exfalso
    have hmem := List.mem_of_find?_eq_some hf
    have heq : p.1 = c := by
      have := List.find?_some hf
      rwa [decide_eq_true_eq] at this
    have h2 : isWS c = false := heq ▸ (lowerTable_not_ws p hmem).1
    rw [h] at h2
    exact Bool.noConfusion h2

/-- `str.lower` fixes the space character. -/
theorem pyLower_space : pyLower ' ' = ' ' := rfl

/-- Whitespace-run collapsing commutes with lower-casing. -/
theorem squeeze_map : ∀ l : List Char,
    squeeze (l.map pyLower) = (squeeze l).map pyLower
  | [] => rfl
  | [c] => by
    by_cases h : isWS c = true <;>
      simp [squeeze, isWS_pyLower, h, pyLower_of_ws, pyLower_space]
  | c :: d :: cs => by
    have ih := squeeze_map (d :: cs)
    by_cases hc : isWS c = true <;> by_cases hd : isWS d = true <;>
      simp_all [squeeze, isWS_pyLower, pyLower_of_ws, pyLower_space]

/-- Leading-whitespace trimming commutes with lower-casing. -/
theorem trimL_map : ∀ l : List Char,
    (l.map pyLower).dropWhile isWS = (l.dropWhile isWS).map pyLower
  | [] => rfl
  | c :: cs => by
    by_cases h : isWS c = true <;>
      simp [List.dropWhile_cons, isWS_pyLower, h, trimL_map cs]

/-- `str.strip` commutes with lower-casing. -/
theorem strip_map (l : List Char) :
    strip (l.map pyLower) = (strip l).map pyLower := by
  simp only [strip, trimL]
  rw [trimL_map, ← List.map_reverse, trimL_map, List.map_reverse]

/-- `normalize_col` applied after lower-casing the input. -/
theorem normalizeCol_eq_lower (s : List Char) :
    normalizeCol s = squeeze (strip (s.map pyLower)) := by
  rw [normalizeCol, strip_map, squeeze_map]

theorem dropWhile_ws_append_of_all (u v : List Char)
    (h : ∀ c ∈ u, isWS c = true) :
    (u ++ v).dropWhile isWS = v.dropWhile isWS := by
  induction u with
  | nil => rfl
  | cons c u' ih =>
    simp only [List.cons_append, List.dropWhile_cons,
      h c (List.mem_cons_self _ _), if_pos]
    exact ih fun d hd => h d (List.mem_cons_of_mem _ hd)

theorem dropWhile_ws_append_of_ne (u v : List Char)
    (h : u.dropWhile isWS ≠ []) :
    (u ++ v).dropWhile isWS = u.dropWhile isWS ++ v := by
  induction u with
  | nil => exact absurd rfl h
  | cons c u' ih =>
    by_cases hc : isWS c = true
    · rw [List.dropWhile_cons_of_pos hc] at h
      simp only [List.cons_append, List.dropWhile_cons_of_pos hc]
      exact ih h
    · rw [List.cons_append, List.dropWhile_cons_of_neg hc,
        List.dropWhile_cons_of_neg hc, List.cons_append]

/-- Collapsing is insensitive to duplicating a space. -/
theorem squeeze_dup :
    ∀ a w : List Char, squeeze (a ++ ' ' :: ' ' :: w) = squeeze (a ++ ' ' :: w)
  | [], w => by simp [squeeze, isWS]
  | [x], w => by
    have base := squeeze_dup [] w
    simp only [List.nil_append] at base
    by_cases hx : isWS x = true <;>
      simp [squeeze, isWS, hx, base]
  | x :: y :: a, w => by
    have ih := squeeze_dup (y :: a) w
    simp only [List.cons_append] at ih ⊢
    by_cases hx : isWS x = true <;> by_cases hy : isWS y = true <;>
      simp [squeeze, hx, hy, ih]

/-- The key whitespace-run property of `normalize_col`: lengthening an
internal whitespace run does not change the key. -/
theorem normalizeCol_ws_run :
    ∀ a b : List Char,
      normalizeCol (a ++ ' ' :: ' ' :: b) = normalizeCol (a ++ ' ' :: b)
  | [], b => by
    have h : trimL (' ' :: ' ' :: b) = trimL (' ' :: b) := by
      simp [trimL, List.dropWhile_cons, isWS]
    simp [normalizeCol, strip, h]
  | x :: a', b => by
    by_cases hx : isWS x = true
    · have h1 : ∀ u : List Char, normalizeCol (x :: u) = normalizeCol u := by
        intro u
        have : trimL (x :: u) = trimL u := by
          simp [trimL, List.dropWhile_cons, hx]
        simp [normalizeCol, strip, this]
      simpa only [List.cons_append, h1] using normalizeCol_ws_run a' b
    · have hxs : ∀ u : List Char, (x :: u).dropWhile isWS = x :: u :=
        fun u => List.dropWhile_cons_of_neg hx
      have hrev : ∀ u : List Char,
          (List.reverse (x :: (a' ++ u))) =
            u.reverse ++ (a'.reverse ++ [x]) := by
        intro u
        simp [List.reverse_cons, List.reverse_append, List.append_assoc]
      have e1 : ((' ' :: ' ' :: b : List Char).reverse) =
          b.reverse ++ [' ', ' '] := by simp
      have e2 : ((' ' :: b : List Char).reverse) = b.reverse ++ [' '] := by
        simp
      by_cases hb : (b.reverse).dropWhile isWS = []
      · have hall : ∀ c ∈ b.reverse, isWS c = true :=
          List.dropWhile_eq_nil_iff.mp hb
        have key : ∀ u : List Char, (∀ c ∈ u, isWS c = true) →
            ((b.reverse ++ u) ++ (a'.reverse ++ [x])).dropWhile isWS =
              (a'.reverse ++ [x]).dropWhile isWS := by
          intro u hu
          rw [List.append_assoc, dropWhile_ws_append_of_all _ _ hall,
            dropWhile_ws_append_of_all _ _ hu]
        simp only [normalizeCol, strip, trimL, List.cons_append, hxs, hrev,
          e1, e2]
        rw [key [' ', ' '] (by decide), key [' '] (by decide)]
      · have key : ∀ u : List Char,
            ((b.reverse ++ u) ++ (a'.reverse ++ [x])).dropWhile isWS =
              (b.reverse).dropWhile isWS ++ (u ++ (a'.reverse ++ [x])) := by
          intro u
          rw [List.append_assoc, dropWhile_ws_append_of_ne _ _ hb]
        simp only [normalizeCol, strip, trimL, List.cons_append, hxs, hrev,
          e1, e2]
        rw [key [' ', ' '], key [' ']]
        have hw1 : ((b.reverse.dropWhile isWS) ++
            ([' ', ' '] ++ (a'.reverse ++ [x]))).reverse =
            x :: (a' ++ (' ' :: ' ' :: (b.reverse.dropWhile isWS).reverse)) := by
          simp [List.reverse_append]
        have hw2 : ((b.reverse.dropWhile isWS) ++
            ([' '] ++ (a'.reverse ++ [x]))).reverse =
            x :: (a' ++ (' ' :: (b.reverse.dropWhile isWS).reverse)) := by
          simp [List.reverse_append]
        rw [hw1, hw2]
        have hd := squeeze_dup (x :: a') ((b.reverse.dropWhile isWS).reverse)
        simp only [List.cons_append] at hd
        rw [hd]

/-! ### Claim C5 -/

/-- C5 counterexample: `normalize_col` performs no diacritic stripping — the
header labels `"é"` and `"e"`, which differ only in a diacritic, normalize
to different keys, and `"á"` is left unchanged rather than stripped to
`"a"`. -/
theorem claim_C5_counterexample :
    normalizeCol ['é'] ≠ normalizeCol ['e'] ∧ normalizeCol ['á'] = ['á'] := by
  exact ⟨by decide, by decide⟩

/-- C5 (amended): header labels that differ only in letter case (equal after
lower-casing) or only in the length of an internal whitespace run normalize
to identical keys; diacritics, however, are preserved, not stripped. -/
theorem claim_C5 :
    (∀ s t : List Char, s.map pyLower = t.map pyLower →
      normalizeCol s = normalizeCol t) ∧
    (∀ a b : List Char,
      normalizeCol (a ++ ' ' :: ' ' :: b) = normalizeCol (a ++ ' ' :: b)) ∧
    normalizeCol ['á'] = ['á'] := by
  refine ⟨?_, normalizeCol_ws_run, by decide⟩
  intro s t h
  rw [normalizeCol_eq_lower, normalizeCol_eq_lower, h]

/-- Witness for C5: `"A"` and `"a"` receive the same key, and inserting an
extra internal space into `"x y"` does not change the key. -/
theorem claim_C5_witness :
    normalizeCol ['A'] = normalizeCol ['a'] ∧
      normalizeCol ['x', ' ', ' ', 'y'] = normalizeCol ['x', ' ', 'y'] :=
  ⟨claim_C5.1 ['A'] ['a'] (by decide), claim_C5.2.1 ['x'] ['y']⟩

/-! ### Claim C4 -/

/-- C4 counterexample: a workbook where strategy (a) yields a frame without
the four required fields, strategy (b) yields (without raising) a frame that
also lacks them, and strategy (c) would yield a frame with all four — the
code returns strategy (b)'s deficient frame instead of attempting strategy
(c), so a later strategy is **not** attempted when an earlier strategy's
result merely lacks required fields. -/
theorem claim_C4_counterexample :
    readExcelSmart ⟨.ok [['x']], .ok [['a']], .ok required4, .ok []⟩ =
        .ok [['a']] ∧
      hasRequired [['a']] = false ∧
      hasRequired required4 = true := by
  exact ⟨rfl, by decide, by decide⟩

/-- C4 (amended): only strategy (a)'s result is tested for the four required
canonical fields; when (a) raises or its result lacks a required field,
strategy (b) runs and its result is returned unconditionally (whether or not
it contains the four fields); strategy (c) — and then (d) — run only when
the preceding strategy raises, and if (b) and (c) both raise the outcome is
strategy (d)'s (whose exception propagates). -/
theorem claim_C4 :
    (∀ (w : SmartOutcomes) (df : Frame), w.stratA = .ok df →
      hasRequired df = true → readExcelSmart w = .ok df) ∧
    (∀ w : SmartOutcomes,
      (∀ df, w.stratA = .ok df → hasRequired df = false) →
        readExcelSmart w = readExcelRest w) ∧
    (∀ (w : SmartOutcomes) (df : Frame), w.stratB = .ok df →
      readExcelRest w = .ok df) ∧
    (∀ (w : SmartOutcomes) (e : Unit), w.stratB = .error e →
      readExcelRest w =
        match w.stratC with
        | .ok df => .ok df
        | .error _ => w.stratD) := by
  refine ⟨?_, ?_, ?_, ?_⟩
  · intro w df h hr
    simp [readExcelSmart, h, hr]
  · intro w h
    cases hA : w.stratA with
    | ok df => simp [readExcelSmart, hA, h df hA]
    | error e => simp [readExcelSmart, hA]
  · intro w df h
    simp [readExcelRest, h]
  · intro w e h
    simp [readExcelRest, h]

/-- Witness for C4: a workbook whose first strategy yields all four required
columns is answered by that strategy's frame. -/
theorem claim_C4_witness :
    readExcelSmart ⟨.ok required4, .ok [], .ok [], .ok []⟩ =
      .ok required4 :=
  claim_C4.1 ⟨.ok required4, .ok [], .ok [], .ok []⟩ required4 rfl (by decide)

/-! ### Claim C7 -/

/-- C7 counterexample: assembling an empty table yields only the `__sheet__`
column — neither `type` (claimed to default to null) nor the claimed
`splicer` field is present, so the canonical table does not contain the six
claimed fields. -/
theorem claim_C7_counterexample :
    typeField ∉ parseDataframeCols [] ∧
      splicerField ∉ parseDataframeCols [] := by
  exact ⟨by decide, by decide⟩

/-- C7 (amended): assembly always succeeds and yields a table whose columns
are exactly those of the five canonical fields `type, map, splices, device,
created_date` that were resolved from the input, plus the `__sheet__` tag;
unresolved fields are omitted rather than defaulted, there is no `splicer`
field, and an empty table yields just `__sheet__`. -/
theorem claim_C7 :
    parseDataframeCols [] = [sheetField] ∧
    (∀ cols : List (List Char), ∀ c ∈ parseDataframeCols cols,
      c ∈ canonical5 ++ [sheetField]) ∧
    (∀ cols : List (List Char), splicerField ∉ parseDataframeCols cols) := by
  have hmem : ∀ cols : List (List Char), ∀ c ∈ parseDataframeCols cols,
      c ∈ canonical5 ++ [sheetField] := by
    intro cols c hc
    simp only [parseDataframeCols] at hc
    rcases List.mem_append.mp hc with h | h
    · exact List.mem_append.mpr (Or.inl (List.mem_of_mem_filter h))
    · exact List.mem_append.mpr (Or.inr h)
  refine ⟨by decide, hmem, ?_⟩
  intro cols h
  exact absurd (hmem cols _ h) (by decide)

/-- Witness for C7: the single column `Tipo` resolves to `type`, which is
among the canonical output columns. -/
theorem claim_C7_witness :
    typeField ∈ canonical5 ++ [sheetField] :=
  claim_C7.2.1 [String.toList "Tipo"] typeField (by decide)

/-! ### Claim C8 -/

/-- C8 counterexample: with a first column whose vocabulary fraction is
`1/2` and a second column whose fraction is `1`, the code assigns the
*first* column, not the one with the maximal fraction; and a lone column
with fraction `3/10` — which exceeds `0.25` — is not assigned, because the
code's threshold is `0.3`, exclusive. -/
theorem claim_C8_counterexample :
    guessTypeColumn [⟨['a'], [['t','e','s','t'], ['x']]⟩,
        ⟨['b'], [['t','e','s','t']]⟩] =
      some ⟨['a'], [['t','e','s','t'], ['x']]⟩ ∧
    typeFrac (⟨['a'], [['t','e','s','t'], ['x']]⟩ : RawColumn) <
      typeFrac (⟨['b'], [['t','e','s','t']]⟩ : RawColumn) ∧
    guessTypeColumn [⟨['d'], [['t','e','s','t'], ['t','e','s','t'],
        ['t','e','s','t'], ['x'], ['x'], ['x'], ['x'], ['x'], ['x'],
        ['x']]⟩] = none ∧
    (1 : ℚ) / 4 <
      typeFrac (⟨['d'], [['t','e','s','t'], ['t','e','s','t'],
        ['t','e','s','t'], ['x'], ['x'], ['x'], ['x'], ['x'], ['x'],
        ['x']]⟩ : RawColumn) := by
  have hA : typeFrac (⟨['a'], [['t','e','s','t'], ['x']]⟩ : RawColumn)
      = 1 / 2 := by
    have h1 : List.countP cellIsTypeLike [['t','e','s','t'], ['x']] = 1 := by
      rfl
    norm_num [typeFrac, h1]
  have hB : typeFrac (⟨['b'], [['t','e','s','t']]⟩ : RawColumn) = 1 := by
    have h1 : List.countP cellIsTypeLike [['t','e','s','t']] = 1 := by rfl
    norm_num [typeFrac, h1]
  have hD : typeFrac (⟨['d'], [['t','e','s','t'], ['t','e','s','t'],
      ['t','e','s','t'], ['x'], ['x'], ['x'], ['x'], ['x'], ['x'],
      ['x']]⟩ : RawColumn) = 3 / 10 := by
    have h1 : List.countP cellIsTypeLike [['t','e','s','t'], ['t','e','s','t'],
        ['t','e','s','t'], ['x'], ['x'], ['x'], ['x'], ['x'], ['x'],
        ['x']] = 3 := by rfl
    norm_num [typeFrac, h1]
  refine ⟨?_, ?_, ?_, ?_⟩
  · apply List.find?_cons_of_pos
    rw [decide_eq_true_eq, hA]
    norm_num
  · rw [hA, hB]; norm_num
  · apply List.find?_eq_none.mpr
    intro c hc
    rw [List.mem_singleton] at hc
    subst hc
    simp only [decide_eq_true_eq, hD]
    norm_num
  · rw [hD]; norm_num

/-- C8 (amended): the `type` field is assigned to the *first* column (in
original column order) whose fraction of case-folded, trimmed cells lying in
the vocabulary `{splice, test, placement, service, splicing}` strictly
exceeds `0.3` — not to the column with the maximal fraction — and no column
is assigned when every column's fraction is at most `0.3`. -/
theorem claim_C8 :
    (∀ (cols : List RawColumn) (c : RawColumn),
      guessTypeColumn cols = some c →
        c ∈ cols ∧ (3 : ℚ) / 10 < typeFrac c) ∧
    (∀ cols : List RawColumn,
      (∀ c ∈ cols, typeFrac c ≤ 3 / 10) → guessTypeColumn cols = none) ∧
    (∀ (pre : List RawColumn) (c : RawColumn) (post : List RawColumn),
      (∀ u ∈ pre, typeFrac u ≤ 3 / 10) → (3 : ℚ) / 10 < typeFrac c →
        guessTypeColumn (pre ++ c :: post) = some c) := by
  refine ⟨?_, ?_, ?_⟩
  · intro cols c h
    refine ⟨List.mem_of_find?_eq_some h, ?_⟩
    have := List.find?_some h
    rwa [decide_eq_true_eq] at this
  · intro cols h
    apply List.find?_eq_none.mpr
    intro c hc
    simp only [decide_eq_true_eq, not_lt]
    exact h c hc
  · intro pre
    induction pre with
    | nil =>
      intro c post _ hc
      exact List.find?_cons_of_pos _ (by rwa [decide_eq_true_eq])
    | cons u pre' ih =>
      intro c post hpre hc
      have hu : typeFrac u ≤ 3 / 10 := hpre u (List.mem_cons_self _ _)
      have hstep : guessTypeColumn ((u :: pre') ++ c :: post) =
          guessTypeColumn (pre' ++ c :: post) := by
        simp only [guessTypeColumn, List.cons_append]
        apply List.find?_cons_of_neg
        simp only [decide_eq_true_eq, not_lt]
        exact hu
      rw [hstep]
      exact ih c post (fun v hv => hpre v (List.mem_cons_of_mem _ hv)) hc

/-- Witness for C8: a lone column with vocabulary fraction `1` is selected. -/
theorem claim_C8_witness :
    guessTypeColumn [⟨['b'], [['t','e','s','t']]⟩] =
      some ⟨['b'], [['t','e','s','t']]⟩ := by
  have hB : typeFrac (⟨['b'], [['t','e','s','t']]⟩ : RawColumn) = 1 := by
    have h1 : List.countP cellIsTypeLike [['t','e','s','t']] = 1 := by rfl
    norm_num [typeFrac, h1]
  exact claim_C8.2.2 [] ⟨['b'], [['t','e','s','t']]⟩ []
    (by intro u hu; cases hu) (by rw [hB]; norm_num)

/-! ### Claim C10 -/

/-- C10: two canonical rows identical except in their `device` field receive
identical splice charges, device charges and totals — the device charge is
computed from the row's `type` field and the `device` field never influences
any charge. -/
theorem claim_C10 (tiers : List SpliceTier) (devs : List DeviceType)
    (r : CanonRow) (d : Option (List Char)) :
    (priceRow tiers devs { r with device := d }).price_splices =
        (priceRow tiers devs r).price_splices ∧
    (priceRow tiers devs { r with device := d }).price_device =
        (priceRow tiers devs r).price_device ∧
    (priceRow tiers devs { r with device := d }).total =
        (priceRow tiers devs r).total :=
  ⟨rfl, rfl, rfl⟩

end Splice
